import Mathlib

/- Verification development for the shared scanner module of the
   github-classroom-utils repository (github_scanner.py): the string and
   identity helpers, the concurrent batch fetch engine, the sequential and
   parallel paged fetchers, and the per-organization validator-token cache.

   Machine-level conventions of the embedding:
   * Python strings are Lean `String`/`List Char`; the handful of regular
     expressions in the source are modelled for the literal
     (metacharacter-free) patterns the source builds.
   * `exit(1)` and uncaught exceptions are modelled as error results of an
     explicit `PyErr` sum; a function that can terminate the process returns
     `Except PyErr _` or `Option _`.
   * Network traffic is an explicit oracle: a function from request URL to
     the response (status, relevant headers, decoded JSON body). -/

set_option maxHeartbeats 1000000

/-! ### Python string helpers -/

/-- Lower-case a list of characters; models Python str.lower on the ASCII
    data these tools handle. -/
def pyToLower (l : List Char) : List Char := l.map Char.toLower

/-- Lower-case a Python string. -/
def pyLower (s : String) : String := (pyToLower s.toList).asString

/-- Models Python str.startswith: character-list containment at the front.
    (Lean's own String.startsWith is byte-position based and does not reduce
    in the kernel, so the embedding works on character lists.) -/
def pyStartsWith (s t : String) : Bool := t.toList.isPrefixOf s.toList

/-- Models re.sub("-\\d+$", "", s): if the character list ends with a dash
    followed by one or more digits, remove that suffix, otherwise return the
    list unchanged. -/
def stripTrailingDashDigits (l : List Char) : List Char :=
  let rev := l.reverse
  let digs := rev.takeWhile Char.isDigit
  match rev.drop digs.length with
  | [] => l
  | c :: rest => if digs ≠ [] ∧ c = '-' then rest.reverse else l

/-- Models the leftmost match of re.search for the literal pattern `pat`
    followed by "(.*)$": scanning left to right, return the characters after
    the first occurrence of `pat`, or `none` when `pat` never occurs. -/
def dropAfterMatch (pat : List Char) : List Char → Option (List Char)
  | [] => if pat.isEmpty then some [] else none
  | c :: cs =>
    if pat.isPrefixOf (c :: cs) then some ((c :: cs).drop pat.length)
    else dropAfterMatch pat cs

/-! ### student_name_from and desired_user (github_scanner.py lines 355-384) -/

/-- Embeds `student_name_from`. The source evaluates
    re.search(github_prefix + "-(.*)$", repo_name) — modelled here for
    literal pattern text — and, on a match, strips one trailing
    dash-plus-digits group from the captured suffix and lower-cases it;
    with no match it returns the empty string. -/
def student_name_from (github_pfx repo_name : String) : String :=
  match dropAfterMatch (github_pfx.toList ++ ['-']) repo_name.toList with
  | none => ""
  | some g => (pyToLower (stripTrailingDashDigits g)).asString

/-- Embeds `desired_user`: lower-case the ignore list, extract the student
    name, and accept exactly when the name is non-empty, the repo name starts
    with the given text, is not equal to it, and the extracted name is not
    ignored. -/
def desired_user (github_pfx : String) (ignore_list : List String) (name : String) : Bool :=
  let lower_case_ignore_list := ignore_list.map pyLower
  let m := pyLower (student_name_from github_pfx name)
  m != "" && pyStartsWith name github_pfx && name != github_pfx &&
    !(lower_case_ignore_list.contains m)

/-- Claim-side reading of extract_student_id, written from the spec's words:
    locate the first position at which the literal text `pfx ++ "-"` occurs in
    `repo`, take everything after that occurrence, strip a trailing
    dash-plus-digits artifact, lower-case the remainder; the empty string
    when the pattern does not match. -/
def extract_student_id_spec (pfx repo : String) : String :=
  match (List.range (repo.toList.length + 1)).find?
      (fun i => (pfx.toList ++ ['-']).isPrefixOf (repo.toList.drop i)) with
  | none => ""
  | some i =>
    (pyToLower (stripTrailingDashDigits
      (repo.toList.drop (i + (pfx.toList ++ ['-']).length)))).asString

lemma dropAfterMatch_eq_find (pat : List Char) (hp : pat ≠ []) :
    ∀ l : List Char,
      dropAfterMatch pat l =
        ((List.range (l.length + 1)).find? (fun i => pat.isPrefixOf (l.drop i))).map
          (fun i => l.drop (i + pat.length)) := by
  intro l
  induction l with
  | nil =>
    cases pat with
    | nil => exact absurd rfl hp
    | cons p ps => simp [dropAfterMatch, List.range_succ, List.isPrefixOf]
  | cons c cs ih =>
    by_cases h : pat.isPrefixOf (c :: cs)
    · rw [dropAfterMatch, if_pos h]
      have hlen : (c :: cs).length + 1 = cs.length + 1 + 1 := by simp
      conv_rhs => rw [hlen, List.range_succ_eq_map]
      rw [List.find?_cons_of_pos _ (by simpa using h)]
      simp
    · rw [dropAfterMatch, if_neg h, ih]
      have hlen : (c :: cs).length + 1 = cs.length + 1 + 1 := by simp
      conv_rhs => rw [hlen, List.range_succ_eq_map]
      rw [List.find?_cons_of_neg _ (by simpa using h), List.find?_map]
      have hcomp :
          ((fun i => pat.isPrefixOf ((c :: cs).drop i)) ∘ Nat.succ) =
            (fun i => pat.isPrefixOf (cs.drop i)) := by
        funext i
        simp [List.drop_succ_cons]
      rw [hcomp, Option.map_map]
      congr 1
      funext i
      simp [List.drop_succ_cons, Nat.succ_add, Nat.add_right_comm]

lemma string_toList_eq_nil {s : String} : s.data = [] ↔ s = "" := by
  constructor
  · intro h
    exact String.ext h
  · rintro rfl
    rfl

lemma pyLower_eq_empty {s : String} : pyLower s = "" ↔ s = "" := by
  unfold pyLower pyToLower
  rw [List.asString_eq]
  simp [List.map_eq_nil_iff, string_toList_eq_nil]

/-- Claim C8: student_name_from strips the literal first argument followed by
    a dash from the repository name, then strips a trailing dash-plus-digits
    suffix and lower-cases the remainder, returning the empty string whenever
    the pattern does not match; in particular the three quoted evaluations
    hold. -/
theorem claim_C8 :
    (∀ pfx repo, student_name_from pfx repo = extract_student_id_spec pfx repo) ∧
    student_name_from "hw1" "hw1-alice-2" = "alice" ∧
    student_name_from "hw1" "hw1-alice" = "alice" ∧
    student_name_from "hw1" "other-repo" = "" := by
  refine ⟨fun pfx repo => ?_, by decide, by decide, by decide⟩
  unfold student_name_from extract_student_id_spec
  rw [dropAfterMatch_eq_find _ (by simp) repo.toList]
  rcases hfind : (List.range (repo.toList.length + 1)).find?
      (fun i => (pfx.toList ++ ['-']).isPrefixOf (repo.toList.drop i)) with _ | i <;>
    rfl

/-- Claim C7: desired_user returns true exactly when the extracted student id
    is non-empty, the repository name starts with the given text without being
    equal to it, and the case-folded id is not in the case-folded ignore list;
    in particular the two quoted evaluations hold. -/
theorem claim_C7 :
    (∀ pfx ignore_list name,
      desired_user pfx ignore_list name = true ↔
        (student_name_from pfx name ≠ "" ∧ pyStartsWith name pfx = true ∧
          name ≠ pfx ∧ pyLower (student_name_from pfx name) ∉ ignore_list.map pyLower)) ∧
    desired_user "hw1" ["alice"] "hw1-alice" = false ∧
    desired_user "hw1" [] "hw1-bob" = true := by
  refine ⟨fun pfx ignore_list name => ?_, by decide, by decide⟩
  unfold desired_user
  simp [Bool.and_eq_true, bne_iff_ne, pyLower_eq_empty, and_assoc]

/-! ### HTTP layer (github_scanner.py lines 70-99, 233-267) -/

/-- Fatal Python event: exit(1) raised by the error handlers, or an uncaught
    KeyError from indexing a missing header or dict key. -/
inductive PyErr : Type
  | exit : PyErr
  | keyError : PyErr
deriving DecidableEq

/-- One HTTP response as the scanner consumes it: status code, the optional
    Link response header, and the decoded JSON body. -/
structure HttpResp (α : Type) : Type where
  status : Nat
  link : Option String
  body : α

/-- URL resolution done by every fetcher: a path that does not start with
    "https:" gets the fixed API origin prepended. -/
def resolveUrl (url : String) : String :=
  if pyStartsWith url "https:" then url else "https://api.github.com/" ++ url

/-- One {'key': ..., 'url': ...} entry of an endpoint_list argument; keys are
    arbitrary (hashable) values in the source, hence a type parameter. -/
structure Endpoint (κ : Type) : Type where
  key : κ
  url : String

/-- One {'key', 'url', 'body'} result dictionary produced by _fetch. -/
structure FetchResult (κ α : Type) : Type where
  key : κ
  url : String
  body : α

/-- Embeds the coroutine _fetch: issue the request, fail fatally via
    fail_on_github_errors_async unless the status is 200, otherwise package
    key, url and decoded body. -/
def pyFetch {κ α : Type} (net : String → HttpResp α) (key : κ) (url : String) :
    Except PyErr (FetchResult κ α) :=
  if (net url).status ≠ 200 then .error .exit
  else .ok ⟨key, url, (net url).body⟩

/-- Embeds the task creation plus asyncio.gather of
    _parallel_get_github_endpoint: every endpoint is fetched, gather returns
    the results in task-submission order whatever the completion order, and a
    fatal error in any task aborts the whole batch with no result list. -/
def gatherFetches {κ α : Type} (net : String → HttpResp α) :
    List (Endpoint κ) → Except PyErr (List (FetchResult κ α))
  | [] => .ok []
  | e :: rest =>
    match pyFetch net e.key (resolveUrl e.url), gatherFetches net rest with
    | .error err, _ => .error err
    | .ok _, .error err => .error err
    | .ok r, .ok rs => .ok (r :: rs)

/-- Insertion into a Python dict, modelled as an association list that keeps
    the first-insertion position of a key and overwrites its value. -/
def pyDictInsert {κ β : Type} [DecidableEq κ] :
    List (κ × β) → κ → β → List (κ × β)
  | [], k, v => [(k, v)]
  | (k', v') :: rest, k, v =>
    if k' = k then (k', v) :: rest else (k', v') :: pyDictInsert rest k v

/-- A Python dict comprehension over a list of key-value pairs, inserting
    left to right. -/
def pyDictOfList {κ β : Type} [DecidableEq κ] (xs : List (κ × β)) : List (κ × β) :=
  xs.foldl (fun m kv => pyDictInsert m kv.1 kv.2) []

/-- Python dict subscript d[k], as an Option. -/
def pyDictGet {κ β : Type} [DecidableEq κ] : List (κ × β) → κ → Option β
  | [], _ => none
  | (k', v) :: rest, k => if k' = k then some v else pyDictGet rest k

/-- Embeds parallel_get_github_endpoint / _parallel_get_github_endpoint: run
    all fetches and build the comprehension dict keyed by x['key']. -/
def parallel_get_github_endpoint {κ α : Type} [DecidableEq κ]
    (endpoint_list : List (Endpoint κ)) (net : String → HttpResp α) :
    Except PyErr (List (κ × FetchResult κ α)) :=
  match gatherFetches net endpoint_list with
  | .error err => .error err
  | .ok responses => .ok (pyDictOfList (responses.map (fun x => (x.key, x))))

/-! ### Batch fetch lemmas -/

/-- The result a successful fetch of endpoint `e` produces. -/
def fetchResultOf {κ α : Type} (net : String → HttpResp α) (e : Endpoint κ) :
    FetchResult κ α :=
  ⟨e.key, resolveUrl e.url, (net (resolveUrl e.url)).body⟩

lemma gatherFetches_ok {κ α : Type} (net : String → HttpResp α)
    (l : List (Endpoint κ)) (h : ∀ e ∈ l, (net (resolveUrl e.url)).status = 200) :
    gatherFetches net l = .ok (l.map (fetchResultOf net)) := by
  induction l with
  | nil => rfl
  | cons e rest ih =>
    have he := h e (by simp)
    have hrest := ih (fun x hx => h x (by simp [hx]))
    simp [gatherFetches, pyFetch, he, hrest, fetchResultOf]

lemma gatherFetches_error {κ α : Type} (net : String → HttpResp α)
    (l : List (Endpoint κ)) (h : ∃ e ∈ l, (net (resolveUrl e.url)).status ≠ 200) :
    gatherFetches net l = .error .exit := by
  induction l with
  | nil => simp at h
  | cons e rest ih =>
    by_cases he : (net (resolveUrl e.url)).status = 200
    · obtain ⟨x, hx, hxs⟩ := h
      rcases List.mem_cons.mp hx with rfl | hx'
      · exact absurd he hxs
      · have := ih ⟨x, hx', hxs⟩
        simp [gatherFetches, pyFetch, he, this]
    · simp [gatherFetches, pyFetch, he]

lemma gatherFetches_ok_iff {κ α : Type} (net : String → HttpResp α)
    (l : List (Endpoint κ)) :
    (∃ rs, gatherFetches net l = .ok rs) ↔
      ∀ e ∈ l, (net (resolveUrl e.url)).status = 200 := by
  constructor
  · intro hrs
    by_contra hnot
    push_neg at hnot
    rw [gatherFetches_error net l hnot] at hrs
    exact absurd hrs.choose_spec (by simp)
  · intro h
    exact ⟨_, gatherFetches_ok net l h⟩

lemma pyDictGet_insert {κ β : Type} [DecidableEq κ] (m : List (κ × β)) (k k' : κ) (v : β) :
    pyDictGet (pyDictInsert m k v) k' = if k = k' then some v else pyDictGet m k' := by
  induction m with
  | nil => simp [pyDictInsert, pyDictGet]
  | cons p rest ih =>
    obtain ⟨pk, pv⟩ := p
    by_cases hpk : pk = k
    · subst hpk
      by_cases hk' : pk = k' <;> simp [pyDictInsert, pyDictGet, hk']
    · by_cases hpk' : pk = k'
      · subst hpk'
        simp [pyDictInsert, pyDictGet, hpk, Ne.symm hpk]
      · simp [pyDictInsert, pyDictGet, hpk, hpk', ih]

lemma pyDictGet_foldl {κ β : Type} [DecidableEq κ] (xs : List (κ × β)) :
    ∀ (m : List (κ × β)) (k : κ),
      pyDictGet (xs.foldl (fun m kv => pyDictInsert m kv.1 kv.2) m) k =
        (match xs.reverse.find? (fun p => p.1 = k) with
          | some p => some p.2
          | none => pyDictGet m k) := by
  induction xs with
  | nil => intro m k; rfl
  | cons x rest ih =>
    intro m k
    rw [List.foldl_cons, ih]
    rw [List.reverse_cons, List.find?_append]
    rcases hfind : rest.reverse.find? (fun p => p.1 = k) with _ | p
    · rw [hfind]
      simp only [Option.none_or]
      obtain ⟨xk, xv⟩ := x
      by_cases hxk : xk = k
      · subst hxk
        simp [pyDictGet_insert, List.find?]
      · simp [List.find?, hxk, pyDictGet_insert]
    · rw [hfind]
      simp

lemma pyDictGet_ofList {κ β : Type} [DecidableEq κ] (xs : List (κ × β)) (k : κ) :
    pyDictGet (pyDictOfList xs) k =
      (xs.reverse.find? (fun p => p.1 = k)).map (fun p => p.2) := by
  rw [pyDictOfList, pyDictGet_foldl]
  rcases hfind : xs.reverse.find? (fun p => p.1 = k) with _ | p <;>
    rw [hfind] <;> rfl

lemma pyDictInsert_keys {κ β : Type} [DecidableEq κ] (m : List (κ × β)) (k : κ) (v : β) :
    (pyDictInsert m k v).map Prod.fst =
      if k ∈ m.map Prod.fst then m.map Prod.fst else m.map Prod.fst ++ [k] := by
  induction m with
  | nil => simp [pyDictInsert]
  | cons p rest ih =>
    obtain ⟨pk, pv⟩ := p
    by_cases hpk : pk = k
    · subst hpk
      simp [pyDictInsert]
    · simp only [pyDictInsert, if_neg hpk, List.map_cons, ih]
      by_cases hk : k ∈ rest.map Prod.fst
      · rw [if_pos hk, if_pos (by simp [hk])]
      · rw [if_neg hk, if_neg (by simp [hk, Ne.symm hpk]), List.cons_append]

lemma pyDictInsert_keys_nodup {κ β : Type} [DecidableEq κ] (m : List (κ × β)) (k : κ) (v : β)
    (h : (m.map Prod.fst).Nodup) : ((pyDictInsert m k v).map Prod.fst).Nodup := by
  rw [pyDictInsert_keys]
  by_cases hk : k ∈ m.map Prod.fst
  · rwa [if_pos hk]
  · rw [if_neg hk]
    simp [List.nodup_append, h, hk]

lemma pyDictInsert_mem_keys {κ β : Type} [DecidableEq κ] (m : List (κ × β)) (k k' : κ) (v : β) :
    k' ∈ (pyDictInsert m k v).map Prod.fst ↔ k' ∈ m.map Prod.fst ∨ k' = k := by
  rw [pyDictInsert_keys]
  by_cases hk : k ∈ m.map Prod.fst
  · rw [if_pos hk]
    constructor
    · exact Or.inl
    · rintro (h | rfl)
      · exact h
      · exact hk
  · rw [if_neg hk]
    simp

lemma pyDictOfList_keys {κ β : Type} [DecidableEq κ] (xs : List (κ × β)) :
    ((pyDictOfList xs).map Prod.fst).Nodup ∧
      (∀ k, k ∈ (pyDictOfList xs).map Prod.fst ↔ k ∈ xs.map Prod.fst) := by
  have aux : ∀ (xs m : List (κ × β)), (m.map Prod.fst).Nodup →
      ((xs.foldl (fun m kv => pyDictInsert m kv.1 kv.2) m).map Prod.fst).Nodup ∧
        ∀ k, k ∈ (xs.foldl (fun m kv => pyDictInsert m kv.1 kv.2) m).map Prod.fst ↔
          k ∈ m.map Prod.fst ∨ k ∈ xs.map Prod.fst := by
    intro xs
    induction xs with
    | nil => intro m hm; simpa using hm
    | cons x rest ih =>
      intro m hm
      rw [List.foldl_cons]
      obtain ⟨hnd, hmem⟩ := ih (pyDictInsert m x.1 x.2) (pyDictInsert_keys_nodup m x.1 x.2 hm)
      refine ⟨hnd, fun k => ?_⟩
      rw [hmem k, pyDictInsert_mem_keys]
      simp [or_assoc, or_comm, or_left_comm]
  obtain ⟨hnd, hmem⟩ := aux xs [] (by simp)
  exact ⟨hnd, fun k => by simpa using hmem k⟩

lemma filter_key_length {κ β : Type} [DecidableEq κ] (m : List (κ × β)) (k : κ)
    (h : (m.map Prod.fst).Nodup) :
    (m.filter (fun p => p.1 = k)).length = if k ∈ m.map Prod.fst then 1 else 0 := by
  induction m with
  | nil => simp
  | cons p rest ih =>
    obtain ⟨pk, pv⟩ := p
    simp only [List.map_cons, List.nodup_cons] at h
    obtain ⟨hpk, hrest⟩ := h
    by_cases hk : pk = k
    · subst hk
      rw [List.filter_cons_of_pos (by simp), List.length_cons, ih hrest, if_neg hpk]
      simp
    · rw [List.filter_cons_of_neg (by simp [hk]), ih hrest]
      have : (k ∈ pk :: rest.map Prod.fst) ↔ k ∈ rest.map Prod.fst := by
        simp [Ne.symm hk]
      simp only [List.map_cons, this]

/-- Claim C5: a batch call produces a result mapping exactly when every
    request in the batch passes response validation; any single non-success
    status makes the whole call abort fatally, yielding no partial mapping. -/
theorem claim_C5 {κ α : Type} [DecidableEq κ]
    (endpoint_list : List (Endpoint κ)) (net : String → HttpResp α) :
    ((∃ m, parallel_get_github_endpoint endpoint_list net = .ok m) ↔
      ∀ e ∈ endpoint_list, (net (resolveUrl e.url)).status = 200) ∧
    ((∃ e ∈ endpoint_list, (net (resolveUrl e.url)).status ≠ 200) →
      parallel_get_github_endpoint endpoint_list net = .error .exit) := by
  constructor
  · constructor
    · rintro ⟨m, hm⟩
      unfold parallel_get_github_endpoint at hm
      rcases hg : gatherFetches net endpoint_list with err | rs
      · rw [hg] at hm
        simp at hm
      · exact (gatherFetches_ok_iff net endpoint_list).mp ⟨rs, hg⟩
    · intro h
      refine ⟨pyDictOfList (((endpoint_list.map (fetchResultOf net))).map
        (fun x => (x.key, x))), ?_⟩
      unfold parallel_get_github_endpoint
      rw [gatherFetches_ok net _ h]
  · intro h
    unfold parallel_get_github_endpoint
    rw [gatherFetches_error net _ h]

/-- Witness for claim C5 at a one-element batch: an all-success net yields a
    mapping, a failing net aborts with exit. -/
theorem claim_C5_witness :
    (∃ m, parallel_get_github_endpoint (κ := String)
      [⟨"k1", "https://api.github.com/a"⟩]
      (fun _ => HttpResp.mk 200 none (0 : Nat)) = .ok m) ∧
    parallel_get_github_endpoint (κ := String)
      [⟨"k1", "https://api.github.com/a"⟩]
      (fun _ => HttpResp.mk 500 none (0 : Nat)) = .error .exit := by
  constructor
  · exact (claim_C5 _ _).1.mpr (by decide)
  · exact (claim_C5 _ _).2 ⟨⟨"k1", "https://api.github.com/a"⟩, by simp, by decide⟩

/-- Claim C9: when a batch contains a duplicated key and every request
    succeeds, the returned dict holds exactly one entry for that key, namely
    the result of the last request carrying it (last writer wins, in task
    submission order). -/
theorem claim_C9 {κ α : Type} [DecidableEq κ]
    (endpoint_list : List (Endpoint κ)) (net : String → HttpResp α) (k : κ)
    (hk : k ∈ endpoint_list.map Endpoint.key)
    (hok : ∀ e ∈ endpoint_list, (net (resolveUrl e.url)).status = 200) :
    ∃ m, parallel_get_github_endpoint endpoint_list net = .ok m ∧
      (m.filter (fun p => p.1 = k)).length = 1 ∧
      pyDictGet m k =
        (endpoint_list.reverse.find? (fun e => e.key = k)).map (fetchResultOf net) := by
  have hentries : (endpoint_list.map (fetchResultOf net)).map
      (fun x : FetchResult κ α => (x.key, x)) =
      endpoint_list.map (fun e => (e.key, fetchResultOf net e)) := by
    rw [List.map_map]
    rfl
  refine ⟨pyDictOfList (endpoint_list.map (fun e => (e.key, fetchResultOf net e))),
    ?_, ?_, ?_⟩
  · unfold parallel_get_github_endpoint
    rw [gatherFetches_ok net _ hok]
    exact congrArg Except.ok (congrArg pyDictOfList hentries)
  · obtain ⟨hnd, hmem⟩ :=
      pyDictOfList_keys (endpoint_list.map (fun e => (e.key, fetchResultOf net e)))
    rw [filter_key_length _ k hnd, if_pos]
    rw [hmem k, List.map_map]
    simpa using hk
  · rw [pyDictGet_ofList, ← List.map_reverse, List.find?_map, Option.map_map]
    rfl

/-- Witness for claim C9: a two-element batch with the duplicated key "k";
    the surviving entry is the second request's result. -/
theorem claim_C9_witness :
    ∃ m, parallel_get_github_endpoint (κ := String)
      [⟨"k", "https://a"⟩, ⟨"k", "https://b"⟩]
      (fun u => HttpResp.mk 200 none (if u = "https://a" then (1 : Nat) else 2)) = .ok m ∧
      (m.filter (fun p => p.1 = "k")).length = 1 ∧
      pyDictGet m "k" =
        (([⟨"k", "https://a"⟩, ⟨"k", "https://b"⟩] : List (Endpoint String)).reverse.find?
          (fun e => e.key = "k")).map
          (fetchResultOf (fun u => HttpResp.mk 200 none (if u = "https://a" then (1 : Nat) else 2))) :=
  claim_C9 _ _ "k" (by decide) (by decide)

/-! ### Link-header pagination parsing (github_scanner.py lines 305-334) -/

/-- Literal text before the captured digits in the pagination pattern
    page=(\d+)>; rel="last". -/
def pagePat : List Char := "page=".toList

/-- Literal text after the captured digits in the pagination pattern. -/
def lastPat : List Char := ">; rel=\"last\"".toList

/-- Value of a list of decimal digit characters, as Python int() computes it
    for the captured group. -/
def digitsToNat (ds : List Char) : Nat :=
  ds.foldl (fun a c => a * 10 + (c.toNat - '0'.toNat)) 0

/-- Models re.findall of the pattern page=(\d+)>; rel="last" over the header
    text: at every position, try the literal head, a maximal non-empty digit
    run, then the literal tail, collecting the captured numbers left to
    right. The maximal digit run is equivalent to the regex engine's
    backtracking because the tail starts with a non-digit; scanning every
    position is equivalent to re.findall's non-overlapping scan because no
    match can start strictly inside another match (the matched text contains
    no second occurrence of the literal head). -/
def findallPageLast : List Char → List Nat
  | [] => []
  | c :: cs =>
    let rest := (c :: cs).drop pagePat.length
    let digs := rest.takeWhile Char.isDigit
    if pagePat.isPrefixOf (c :: cs) ∧ digs ≠ [] ∧
        lastPat.isPrefixOf (rest.drop digs.length) then
      digitsToNat digs :: findallPageLast cs
    else
      findallPageLast cs

/-! ### Paged fetchers (github_scanner.py lines 270-334) -/

/-- Loop body of get_github_endpoint_paged_list: request the current page
    (the oracle indexes responses by page number, page 1 being the request
    with no page parameter), fail fatally on a non-200 status, stop when a
    page decodes to an empty array, otherwise append and continue. Runs on
    explicit fuel; `none` means the while loop was still running when the
    fuel ran out. -/
def seqPagedLoop {α : Type} (pages : Nat → HttpResp (List α)) :
    Nat → Nat → List α → Option (Except PyErr (List α))
  | 0, _, _ => none
  | fuel + 1, page_number, result_list =>
    if (pages page_number).status ≠ 200 then some (.error .exit)
    else if (pages page_number).body.isEmpty then some (.ok result_list)
    else seqPagedLoop pages fuel (page_number + 1)
      (result_list ++ (pages page_number).body)

/-- Embeds get_github_endpoint_paged_list: page through the endpoint
    starting at page 1 with an empty accumulator. -/
def get_github_endpoint_paged_list {α : Type} (pages : Nat → HttpResp (List α))
    (fuel : Nat) : Option (Except PyErr (List α)) :=
  seqPagedLoop pages fuel 1 []

/-- The page URL list of the parallel paged fetcher:
    ["%s?page=%d" % (endpoint, n) for n in range(1, num_pages + 1)]. -/
def pageUrls (ep : String) (num_pages : Nat) : List String :=
  (List.range' 1 num_pages).map (fun n => ep ++ "?page=" ++ Nat.repr n)

/-- Embeds parallel_get_github_endpoint_paged_list: resolve the endpoint,
    fetch page 1, read its Link header (an uncaught KeyError when the header
    is absent), findall the rel="last" page number; unless exactly one match
    is found, return page 1's body; otherwise build the page=1..N URLs, batch
    fetch them, and concatenate the page bodies in page-number order. -/
def parallel_get_github_endpoint_paged_list {α : Type} (endpoint : String)
    (net : String → HttpResp (List α)) : Except PyErr (List α) :=
  let ep := resolveUrl endpoint
  let page1_result := net ep
  if page1_result.status ≠ 200 then .error .exit
  else
    match page1_result.link with
    | none => .error .keyError
    | some link_header =>
      match findallPageLast link_header.toList with
      | [num_pages] =>
        let urls := pageUrls ep num_pages
        match parallel_get_github_endpoint (urls.map (fun u => Endpoint.mk u u)) net with
        | .error err => .error err
        | .ok all_pages =>
          match urls.mapM (fun u => (pyDictGet all_pages u).map FetchResult.body) with
          | none => .error .keyError
          | some ordered_pages => .ok (ordered_pages.foldl (fun a b => a ++ b) [])
      | _ => .ok page1_result.body

/-- Claim C3 (amended): for a page-1 response that passes validation and
    whose Link header is present but malformed — the rel="last" pattern does
    not yield exactly one match — the parallel paged fetcher returns exactly
    page 1's decoded content without raising. (When the Link header is
    absent entirely the source instead raises an uncaught KeyError; see the
    counterexample.) -/
theorem claim_C3 {α : Type} (endpoint : String) (net : String → HttpResp (List α))
    (lh : String)
    (hstatus : (net (resolveUrl endpoint)).status = 200)
    (hlink : (net (resolveUrl endpoint)).link = some lh)
    (hmal : (findallPageLast lh.toList).length ≠ 1) :
    parallel_get_github_endpoint_paged_list endpoint net =
      .ok (net (resolveUrl endpoint)).body := by
  unfold parallel_get_github_endpoint_paged_list
  rw [if_neg (by simp [hstatus])]
  simp only [hlink]
  rcases hfa : findallPageLast lh.toList with _ | ⟨a, _ | ⟨b, rest⟩⟩
  · rfl
  · exact absurd (by rw [hfa]; rfl) hmal
  · rfl

/-- Witness for the amended claim C3: a header text with no pagination match
    makes the fetcher fall back to page 1's body. -/
theorem claim_C3_witness :
    parallel_get_github_endpoint_paged_list "https://api.github.com/orgs/o/repos"
      (fun _ => HttpResp.mk 200 (some "nolink") [(5 : Nat)]) =
      .ok (HttpResp.mk 200 (some "nolink") [(5 : Nat)]).body :=
  claim_C3 _ _ "nolink" (by decide) rfl (by decide)

/-- Counterexample to claim C3 as stated: when the Link header is absent the
    fetcher does not fall back to page 1's content — indexing the missing
    header raises an uncaught KeyError, a fatal termination. -/
theorem claim_C3_cex :
    parallel_get_github_endpoint_paged_list "https://api.github.com/orgs/o/repos"
      (fun _ => HttpResp.mk 200 none [(7 : Nat)]) = .error .keyError ∧
    (Except.error PyErr.keyError : Except PyErr (List Nat)) ≠
      .ok (HttpResp.mk 200 (none : Option String) [(7 : Nat)]).body := by
  exact ⟨rfl, by simp⟩

/-! ### Injectivity of decimal printing (page URLs are keyed by number) -/

lemma toDigitsCore_succ (b f n : Nat) (ds : List Char) :
    Nat.toDigitsCore b (f + 1) n ds =
      if n / b = 0 then Nat.digitChar (n % b) :: ds
      else Nat.toDigitsCore b f (n / b) (Nat.digitChar (n % b) :: ds) := rfl

lemma toDigitsCore_acc (b : Nat) :
    ∀ (f n : Nat) (ds : List Char),
      Nat.toDigitsCore b f n ds = Nat.toDigitsCore b f n [] ++ ds := by
  intro f
  induction f with
  | zero => intro n ds; rfl
  | succ f ih =>
    intro n ds
    rw [toDigitsCore_succ, toDigitsCore_succ]
    by_cases h : n / b = 0
    · simp [h]
    · rw [if_neg h, if_neg h, ih (n / b) (Nat.digitChar (n % b) :: ds),
        ih (n / b) [Nat.digitChar (n % b)], List.append_assoc]
      rfl

lemma toDigitsCore_fuel (b : Nat) (hb : 2 ≤ b) :
    ∀ (n f f' : Nat) (ds : List Char), n < f → n < f' →
      Nat.toDigitsCore b f n ds = Nat.toDigitsCore b f' n ds := by
  intro n
  induction n using Nat.strong_induction_on with
  | _ n ih =>
    intro f f' ds hf hf'
    cases f with
    | zero => omega
    | succ g =>
      cases f' with
      | zero => omega
      | succ g' =>
        rw [toDigitsCore_succ, toDigitsCore_succ]
        by_cases h : n / b = 0
        · rw [if_pos h, if_pos h]
        · rw [if_neg h, if_neg h]
          have hn : 0 < n := by
            rcases Nat.eq_zero_or_pos n with rfl | hpos
            · simp at h
            · exact hpos
          have hdiv : n / b < n := Nat.div_lt_self hn (by omega)
          exact ih (n / b) hdiv g g' _ (by omega) (by omega)

lemma toDigits_recurrence (n : Nat) :
    Nat.toDigits 10 n =
      if n < 10 then [Nat.digitChar n]
      else Nat.toDigits 10 (n / 10) ++ [Nat.digitChar (n % 10)] := by
  by_cases h : n < 10
  · rw [if_pos h]
    show Nat.toDigitsCore 10 (n + 1) n [] = _
    rw [toDigitsCore_succ, if_pos (by omega : n / 10 = 0), Nat.mod_eq_of_lt h]
  · rw [if_neg h]
    show Nat.toDigitsCore 10 (n + 1) n [] = Nat.toDigitsCore 10 (n / 10 + 1) (n / 10) [] ++ _
    rw [toDigitsCore_succ, if_neg (by omega : ¬ n / 10 = 0), toDigitsCore_acc]
    congr 1
    exact toDigitsCore_fuel 10 (by omega) (n / 10) n (n / 10 + 1) []
      (Nat.div_lt_self (by omega) (by omega)) (by omega)

lemma toDigits_ne_nil (n : Nat) : Nat.toDigits 10 n ≠ [] := by
  rw [toDigits_recurrence]
  by_cases h : n < 10
  · simp [h]
  · simp [h]

lemma digitChar_inj : ∀ a, a < 10 → ∀ b, b < 10 →
    Nat.digitChar a = Nat.digitChar b → a = b := by decide

lemma toDigits_injective : ∀ n m : Nat, Nat.toDigits 10 n = Nat.toDigits 10 m → n = m := by
  intro n
  induction n using Nat.strong_induction_on with
  | _ n ih =>
    intro m h
    rw [toDigits_recurrence n, toDigits_recurrence m] at h
    by_cases hn : n < 10 <;> by_cases hm : m < 10
    · rw [if_pos hn, if_pos hm] at h
      exact digitChar_inj n hn m hm (by simpa using h)
    · rw [if_pos hn, if_neg hm] at h
      obtain ⟨c, cs, hcs⟩ := List.exists_cons_of_ne_nil (toDigits_ne_nil (m / 10))
      rw [hcs] at h
      simp at h
    · rw [if_neg hn, if_pos hm] at h
      obtain ⟨c, cs, hcs⟩ := List.exists_cons_of_ne_nil (toDigits_ne_nil (n / 10))
      rw [hcs] at h
      simp at h
    · rw [if_neg hn, if_neg hm] at h
      obtain ⟨h1, h2⟩ := List.append_inj' h (by simp)
      have hd : n / 10 = m / 10 :=
        ih (n / 10) (Nat.div_lt_self (by omega) (by omega)) (m / 10) h1
      have hm2 : n % 10 = m % 10 :=
        digitChar_inj _ (Nat.mod_lt _ (by omega)) _ (Nat.mod_lt _ (by omega))
          (by simpa using h2)
      omega

lemma nat_repr_injective : ∀ n m : Nat, Nat.repr n = Nat.repr m → n = m := by
  intro n m h
  unfold Nat.repr at h
  exact toDigits_injective n m (List.asString_inj.mp h)

lemma string_append_right_inj {s t u : String} (h : s ++ t = s ++ u) : t = u := by
  apply String.ext
  have hd := congrArg String.data h
  simp only [String.data_append] at hd
  exact List.append_cancel_left hd

lemma pageUrl_injective (ep : String) {n m : Nat}
    (h : ep ++ "?page=" ++ Nat.repr n = ep ++ "?page=" ++ Nat.repr m) : n = m :=
  nat_repr_injective n m (string_append_right_inj h)

/-! ### URL resolution lemmas -/

lemma pyStartsWith_append (s t : String) (h : pyStartsWith s "https:" = true) :
    pyStartsWith (s ++ t) "https:" = true := by
  unfold pyStartsWith at h ⊢
  rw [List.isPrefixOf_iff_prefix] at h ⊢
  have : s.toList <+: (s ++ t).toList := by
    show s.data <+: (s ++ t).data
    rw [String.data_append]
    exact List.prefix_append _ _
  exact h.trans this

lemma pyStartsWith_resolveUrl (url : String) :
    pyStartsWith (resolveUrl url) "https:" = true := by
  unfold resolveUrl
  by_cases h : pyStartsWith url "https:" = true
  · rwa [if_pos h]
  · rw [if_neg h]
    exact pyStartsWith_append "https://api.github.com/" url (by decide)

lemma resolveUrl_of_https (u : String) (h : pyStartsWith u "https:" = true) :
    resolveUrl u = u := by
  unfold resolveUrl
  rw [if_pos h]

lemma resolveUrl_pageUrl (endpoint : String) (n : Nat) :
    resolveUrl (resolveUrl endpoint ++ "?page=" ++ Nat.repr n) =
      resolveUrl endpoint ++ "?page=" ++ Nat.repr n :=
  resolveUrl_of_https _
    (pyStartsWith_append _ _ (pyStartsWith_append _ _ (pyStartsWith_resolveUrl _)))

/-! ### Keyed lookup under distinct keys -/

lemma find?_key_unique {κ β : Type} [DecidableEq κ] :
    ∀ (l : List (κ × β)) (k : κ) (v : β), (l.map Prod.fst).Nodup → (k, v) ∈ l →
      l.find? (fun p => p.1 = k) = some (k, v) := by
  intro l
  induction l with
  | nil => intro k v _ hmem; simp at hmem
  | cons p rest ih =>
    intro k v hnd hmem
    simp only [List.map_cons, List.nodup_cons] at hnd
    obtain ⟨hp, hrest⟩ := hnd
    by_cases hk : p.1 = k
    · rw [List.find?_cons_of_pos _ (by simpa using hk)]
      rcases List.mem_cons.mp hmem with rfl | hmem'
      · rfl
      · exact absurd (hk ▸ (List.mem_map_of_mem Prod.fst hmem')) hp
    · rw [List.find?_cons_of_neg _ (by simpa using hk)]
      rcases List.mem_cons.mp hmem with rfl | hmem'
      · exact absurd rfl hk
      · exact ih k v hrest hmem'

lemma pyDictGet_ofList_of_nodup {κ β : Type} [DecidableEq κ]
    (entries : List (κ × β)) (k : κ) (v : β)
    (hnd : (entries.map Prod.fst).Nodup) (hmem : (k, v) ∈ entries) :
    pyDictGet (pyDictOfList entries) k = some v := by
  rw [pyDictGet_ofList]
  have hnd' : (entries.reverse.map Prod.fst).Nodup := by
    rw [List.map_reverse]
    exact List.nodup_reverse.mpr hnd
  have hmem' : (k, v) ∈ entries.reverse := List.mem_reverse.mpr hmem
  rw [find?_key_unique entries.reverse k v hnd' hmem']
  rfl

lemma mapM_eq_some_map {β γ : Type} (l : List β) (f : β → Option γ) (g : β → γ)
    (h : ∀ x ∈ l, f x = some (g x)) : l.mapM f = some (l.map g) := by
  induction l with
  | nil => rfl
  | cons x xs ih =>
    rw [List.mapM_cons, h x (by simp), ih (fun y hy => h y (by simp [hy]))]
    rfl

lemma foldl_append_flatten {β : Type} (l : List (List β)) :
    ∀ acc, l.foldl (fun a b => a ++ b) acc = acc ++ l.flatten := by
  induction l with
  | nil => simp
  | cons x xs ih => intro acc; simp [ih, List.append_assoc]

lemma flatten_map_singleton {β : Type} (l : List β) :
    (l.map (fun n => [n])).flatten = l := by
  induction l with
  | nil => rfl
  | cons x xs ih => simp [ih]

/-! ### Claim C4: marker pages come back in page order -/

lemma seqPagedLoop_marker (N : Nat) (pages : Nat → HttpResp (List Nat))
    (hpages : ∀ k, 1 ≤ k → (pages k).status = 200 ∧
      (pages k).body = if k ≤ N then [k] else []) :
    ∀ (fuel j : Nat) (acc : List Nat), 1 ≤ j → j ≤ N + 1 → N + 2 ≤ fuel + j →
      seqPagedLoop pages fuel j acc =
        some (.ok (acc ++ List.range' j (N + 1 - j))) := by
  intro fuel
  induction fuel with
  | zero => intro j acc h1 h2 h3; omega
  | succ fuel ih =>
    intro j acc h1 h2 h3
    obtain ⟨hst, hbd⟩ := hpages j h1
    rw [seqPagedLoop, if_neg (by simp [hst])]
    by_cases hj : j ≤ N
    · rw [hbd, if_pos hj]
      rw [if_neg (by simp)]
      rw [ih (j + 1) (acc ++ [j]) (by omega) (by omega) (by omega)]
      have hr : List.range' j (N + 1 - j) = j :: List.range' (j + 1) (N - j) := by
        have hx : N + 1 - j = (N - j) + 1 := by omega
        rw [hx, List.range'_succ]
      rw [hr]
      simp
    · have hj1 : j = N + 1 := by omega
      rw [hbd, if_neg hj, if_pos (by simp)]
      have hx : N + 1 - j = 0 := by omega
      rw [hx]
      simp [List.range']

/-- Claim C4: for a synthetic N-page listing in which page k decodes to the
    single marker value k, the sequential fetcher and the parallel fetcher
    both return [1, 2, ..., N] in exactly that order; moreover the parallel
    result is insensitive to the order in which the page responses arrive,
    because the response dict is keyed (any permutation of the gathered
    responses produces the same page-ordered lookups). -/
theorem claim_C4 (N : Nat) (endpoint : String)
    (net : String → HttpResp (List Nat)) (pages : Nat → HttpResp (List Nat))
    (lh : String)
    (hp1status : (net (resolveUrl endpoint)).status = 200)
    (hp1link : (net (resolveUrl endpoint)).link = some lh)
    (hfa : findallPageLast lh.toList = [N])
    (hnet : ∀ n, 1 ≤ n → n ≤ N →
      (net (resolveUrl endpoint ++ "?page=" ++ Nat.repr n)).status = 200 ∧
      (net (resolveUrl endpoint ++ "?page=" ++ Nat.repr n)).body = [n])
    (hpages : ∀ k, 1 ≤ k → (pages k).status = 200 ∧
      (pages k).body = if k ≤ N then [k] else []) :
    get_github_endpoint_paged_list pages (N + 1) = some (.ok (List.range' 1 N)) ∧
    parallel_get_github_endpoint_paged_list endpoint net = .ok (List.range' 1 N) ∧
    (∀ entries' : List (String × FetchResult String (List Nat)),
      entries'.Perm ((pageUrls (resolveUrl endpoint) N).map
        (fun u => (u, fetchResultOf net (Endpoint.mk u u)))) →
      (pageUrls (resolveUrl endpoint) N).mapM
          (fun u => (pyDictGet (pyDictOfList entries') u).map FetchResult.body) =
        some ((List.range' 1 N).map (fun n => [n]))) := by
  have hurl : ∀ u ∈ pageUrls (resolveUrl endpoint) N,
      ∃ n, 1 ≤ n ∧ n ≤ N ∧ u = resolveUrl endpoint ++ "?page=" ++ Nat.repr n := by
    intro u hu
    rw [pageUrls, List.mem_map] at hu
    obtain ⟨n, hn, rfl⟩ := hu
    obtain ⟨hn1, hn2⟩ := List.mem_range'_1.mp hn
    exact ⟨n, hn1, by omega, rfl⟩
  have hurls_nodup : (pageUrls (resolveUrl endpoint) N).Nodup := by
    rw [pageUrls]
    exact (List.nodup_range' _ _).map (fun a b h => pageUrl_injective _ h)
  have hkeys : ((pageUrls (resolveUrl endpoint) N).map
      (fun u => (u, fetchResultOf net (Endpoint.mk u u)))).map Prod.fst =
      pageUrls (resolveUrl endpoint) N := by
    rw [List.map_map]
    exact List.map_id _
  have hlookup : ∀ entries' : List (String × FetchResult String (List Nat)),
      entries'.Perm ((pageUrls (resolveUrl endpoint) N).map
        (fun u => (u, fetchResultOf net (Endpoint.mk u u)))) →
      ∀ u ∈ pageUrls (resolveUrl endpoint) N,
        pyDictGet (pyDictOfList entries') u =
          some (fetchResultOf net (Endpoint.mk u u)) := by
    intro entries' hperm u hu
    apply pyDictGet_ofList_of_nodup
    · rw [List.Perm.nodup_iff (hperm.map Prod.fst)]
      rw [hkeys]
      exact hurls_nodup
    · rw [hperm.mem_iff]
      exact List.mem_map_of_mem _ hu
  have hbody : ∀ u ∈ pageUrls (resolveUrl endpoint) N, ∀ n, 1 ≤ n → n ≤ N →
      u = resolveUrl endpoint ++ "?page=" ++ Nat.repr n →
      (fetchResultOf net (Endpoint.mk u u)).body = [n] := by
    intro u _ n h1 h2 hu
    subst hu
    show (net (resolveUrl _)).body = [n]
    rw [resolveUrl_pageUrl]
    exact (hnet n h1 h2).2
  have hmapM : ∀ entries' : List (String × FetchResult String (List Nat)),
      entries'.Perm ((pageUrls (resolveUrl endpoint) N).map
        (fun u => (u, fetchResultOf net (Endpoint.mk u u)))) →
      (pageUrls (resolveUrl endpoint) N).mapM
          (fun u => (pyDictGet (pyDictOfList entries') u).map FetchResult.body) =
        some ((List.range' 1 N).map (fun n => [n])) := by
    intro entries' hperm
    have hstep : ∀ u ∈ pageUrls (resolveUrl endpoint) N,
        (pyDictGet (pyDictOfList entries') u).map FetchResult.body =
          some ((fetchResultOf net (Endpoint.mk u u)).body) := by
      intro u hu
      rw [hlookup entries' hperm u hu]
      rfl
    rw [mapM_eq_some_map _ _ (fun u => (fetchResultOf net (Endpoint.mk u u)).body) hstep]
    congr 1
    rw [pageUrls, List.map_map]
    apply List.map_congr_left
    intro n hn
    obtain ⟨hn1, hn2⟩ := List.mem_range'_1.mp hn
    exact hbody _ (by rw [pageUrls]; exact List.mem_map_of_mem _ hn) n hn1 (by omega) rfl
  refine ⟨?_, ?_, hmapM⟩
  · rw [get_github_endpoint_paged_list,
      seqPagedLoop_marker N pages hpages (N + 1) 1 [] (by omega) (by omega) (by omega)]
    simp
  · have hok : ∀ e ∈ (pageUrls (resolveUrl endpoint) N).map (fun u => Endpoint.mk u u),
        (net (resolveUrl e.url)).status = 200 := by
      intro e he
      obtain ⟨u, hu, rfl⟩ := List.mem_map.mp he
      obtain ⟨n, h1, h2, rfl⟩ := hurl u hu
      rw [resolveUrl_pageUrl]
      exact (hnet n h1 h2).1
    unfold parallel_get_github_endpoint_paged_list
    rw [if_neg (by simp [hp1status])]
    simp only [hp1link, hfa]
    have hbatch : parallel_get_github_endpoint
        ((pageUrls (resolveUrl endpoint) N).map (fun u => Endpoint.mk u u)) net =
        .ok (pyDictOfList ((pageUrls (resolveUrl endpoint) N).map
          (fun u => (u, fetchResultOf net (Endpoint.mk u u))))) := by
      unfold parallel_get_github_endpoint
      rw [gatherFetches_ok net _ hok]
      dsimp only
      rw [List.map_map, List.map_map]
      rfl
    rw [hbatch]
    dsimp only
    rw [hmapM _ (List.Perm.refl _)]
    dsimp only
    rw [foldl_append_flatten, flatten_map_singleton]
    simp

/-- Witness for claim C4 at N = 3: both fetchers return [1, 2, 3]. -/
theorem claim_C4_witness :
    parallel_get_github_endpoint_paged_list "https://e"
        (fun u =>
          if u = "https://e" ++ "?page=" ++ Nat.repr 1 then HttpResp.mk 200 none [1]
          else if u = "https://e" ++ "?page=" ++ Nat.repr 2 then HttpResp.mk 200 none [2]
          else if u = "https://e" ++ "?page=" ++ Nat.repr 3 then HttpResp.mk 200 none [3]
          else HttpResp.mk 200 (some "<https://e?page=3>; rel=\"last\"") []) =
      .ok (List.range' 1 3) ∧
    get_github_endpoint_paged_list
        (fun k => HttpResp.mk 200 none (if k ≤ 3 then [k] else [])) (3 + 1) =
      some (.ok (List.range' 1 3)) := by
  have h := claim_C4 3 "https://e"
    (fun u =>
      if u = "https://e" ++ "?page=" ++ Nat.repr 1 then HttpResp.mk 200 none [1]
      else if u = "https://e" ++ "?page=" ++ Nat.repr 2 then HttpResp.mk 200 none [2]
      else if u = "https://e" ++ "?page=" ++ Nat.repr 3 then HttpResp.mk 200 none [3]
      else HttpResp.mk 200 (some "<https://e?page=3>; rel=\"last\"") [])
    (fun k => HttpResp.mk 200 none (if k ≤ 3 then [k] else []))
    "<https://e?page=3>; rel=\"last\""
    (by decide) (by decide) (by decide)
    (by intro n h1 h2; interval_cases n <;> exact ⟨by decide, by decide⟩)
    (fun k _ => ⟨rfl, rfl⟩)
  exact ⟨h.2.1, h.1⟩

/-! ### The per-organization cache (github_scanner.py lines 23-67, 126-180) -/

/-- One in-memory or on-disk cache entry for an organization: the stored
    validator token (the ETag key) and the listing snapshot (the Contents
    key). -/
structure CacheEntry (α : Type) : Type where
  etag : String
  contents : List α

/-- State touched by query_repos_cached: the process-wide scanner_cache dict
    and the per-organization dot-files on disk, both keyed by organization
    name; `none` means no entry / no readable file. Persisted files are
    modelled as well-formed, i.e. as written by store_cache. -/
structure ScanState (α : Type) : Type where
  mem : String → Option (CacheEntry α)
  disk : String → Option (CacheEntry α)

/-- The assignment scanner_cache[github_organization] = entry. -/
def setMem {α : Type} (s : ScanState α) (github_organization : String)
    (entry : CacheEntry α) : ScanState α :=
  { s with mem := fun o => if o = github_organization then some entry else s.mem o }

/-- Embeds load_cache: a no-op when the organization is already in
    scanner_cache, otherwise the persisted file, when present and readable,
    is loaded into scanner_cache. -/
def load_cache {α : Type} (s : ScanState α) (github_organization : String) : ScanState α :=
  if (s.mem github_organization).isSome then s
  else
    match s.disk github_organization with
    | some data => setMem s github_organization data
    | none => s

/-- Embeds store_cache: persist the in-memory entry to the organization's
    dot-file; a no-op, with a warning, when the organization has nothing in
    memory. -/
def store_cache {α : Type} (s : ScanState α) (github_organization : String) : ScanState α :=
  match s.mem github_organization with
  | none => s
  | some entry =>
    { s with disk := fun o => if o = github_organization then some entry else s.disk o }

/-- The HEAD probe response: status and the ETag response header. -/
structure HeadResp : Type where
  status : Nat
  etag : Option String

/-- The previous_etag expression of query_repos_cached: the stored token when
    the organization is in scanner_cache, the empty string otherwise. -/
def previous_etag {α : Type} (s : ScanState α) (github_organization : String) : String :=
  match s.mem github_organization with
  | some e => e.etag
  | none => ""

/-- Result of one query_repos_cached call: the returned listing, the state
    after the call, and whether a full paginated fetch was performed. -/
structure CallResult (α : Type) : Type where
  result : List α
  state : ScanState α
  didFullFetch : Bool

/-- Embeds query_repos_cached. The network is split into the HEAD probe
    response and the URL oracle handed to the parallel paged fetcher for the
    full listing. `none` models a fatal termination: exit(1) on a failed
    probe, a KeyError on a missing ETag header, a KeyError reading Contents
    when the probed token equals the empty previous_etag of an uncached
    organization, or any fatal error inside the full fetch. -/
def query_repos_cached {α : Type} (s : ScanState α) (github_organization : String)
    (head_status : HeadResp) (fetchNet : String → HttpResp (List α)) :
    Option (CallResult α) :=
  if head_status.status ≠ 200 then none
  else
    match head_status.etag with
    | none => none
    | some current_etag =>
      if previous_etag (load_cache s github_organization) github_organization =
          current_etag then
        match (load_cache s github_organization).mem github_organization with
        | some e => some ⟨e.contents, load_cache s github_organization, false⟩
        | none => none
      else
        match parallel_get_github_endpoint_paged_list
            ("orgs/" ++ github_organization ++ "/repos") fetchNet with
        | .error _ => none
        | .ok all_repos_list =>
          some ⟨all_repos_list,
            if all_repos_list.length ≠ 0 then
              store_cache (setMem (load_cache s github_organization)
                github_organization ⟨current_etag, all_repos_list⟩) github_organization
            else
              setMem (load_cache s github_organization) github_organization
                ⟨current_etag, all_repos_list⟩,
            true⟩

lemma load_cache_of_isSome {α : Type} (s : ScanState α) (org : String)
    (h : (s.mem org).isSome) : load_cache s org = s := by
  unfold load_cache
  rw [if_pos h]

lemma load_cache_disk {α : Type} (s : ScanState α) (org : String) :
    (load_cache s org).disk = s.disk := by
  unfold load_cache
  by_cases h : (s.mem org).isSome
  · rw [if_pos h]
  · rw [if_neg h]
    cases s.disk org <;> rfl

lemma setMem_disk {α : Type} (s : ScanState α) (org : String) (entry : CacheEntry α) :
    (setMem s org entry).disk = s.disk := rfl

lemma setMem_mem_self {α : Type} (s : ScanState α) (org : String) (entry : CacheEntry α) :
    (setMem s org entry).mem org = some entry := by
  unfold setMem
  simp

lemma store_cache_mem {α : Type} (s : ScanState α) (org : String) :
    (store_cache s org).mem = s.mem := by
  unfold store_cache
  cases s.mem org <;> rfl

/-- Hit path of query_repos_cached: a cached organization whose stored token
    matches the probe is served from memory with no full fetch and no state
    change. -/
lemma query_hit {α : Type} (s : ScanState α) (org : String) (h : HeadResp)
    (n : String → HttpResp (List α)) (en : CacheEntry α)
    (hmem : s.mem org = some en) (hst : h.status = 200) (he : h.etag = some en.etag) :
    query_repos_cached s org h n = some ⟨en.contents, s, false⟩ := by
  have hl : load_cache s org = s := load_cache_of_isSome s org (by simp [hmem])
  have hprev : previous_etag s org = en.etag := by
    unfold previous_etag
    rw [hmem]
  unfold query_repos_cached
  rw [if_neg (by simp [hst])]
  simp [he, hl, hprev, hmem]

/-- After any successful query_repos_cached call, the organization is in
    memory with a token equal to the probed one and contents equal to the
    returned listing. -/
lemma query_mem_after {α : Type} (s : ScanState α) (org : String) (h : HeadResp)
    (n : String → HttpResp (List α)) (r : CallResult α)
    (hq : query_repos_cached s org h n = some r) :
    ∃ e : CacheEntry α, r.state.mem org = some e ∧ e.contents = r.result ∧
      h.etag = some e.etag := by
  unfold query_repos_cached at hq
  by_cases hst : h.status = 200
  · rw [if_neg (by simp [hst])] at hq
    rcases hetag : h.etag with _ | current
    · rw [hetag] at hq
      cases hq
    · rw [hetag] at hq
      dsimp only at hq
      by_cases hprev : previous_etag (load_cache s org) org = current
      · rw [if_pos hprev] at hq
        rcases hmem : (load_cache s org).mem org with _ | e
        · rw [hmem] at hq
          cases hq
        · rw [hmem] at hq
          cases hq
          refine ⟨e, hmem, rfl, ?_⟩
          congr 1
          rw [← hprev]
          unfold previous_etag
          rw [hmem]
      · rw [if_neg hprev] at hq
        rcases hfetch : parallel_get_github_endpoint_paged_list
            ("orgs/" ++ org ++ "/repos") n with err | all_repos_list
        · rw [hfetch] at hq
          cases hq
        · rw [hfetch] at hq
          cases hq
          refine ⟨⟨current, all_repos_list⟩, ?_, rfl, rfl⟩
          by_cases hlen : all_repos_list.length ≠ 0
          · simp only [if_pos hlen, store_cache_mem, setMem_mem_self]
          · simp only [if_neg hlen, setMem_mem_self]
  · rw [if_pos (by simp [hst])] at hq
    cases hq

/-- Claim C1: if the probe before a second query_repos_cached call returns
    the token stored by a first successful call, the second call performs no
    full-listing fetch (didFullFetch is false, and the result does not depend
    on the fetch oracle n2) and returns exactly the listing the first call
    returned, leaving the state unchanged. -/
theorem claim_C1 {α : Type} (s : ScanState α) (org : String) (h1 : HeadResp)
    (n1 : String → HttpResp (List α)) (r1 : CallResult α)
    (hc1 : query_repos_cached s org h1 n1 = some r1)
    (h2 : HeadResp) (n2 : String → HttpResp (List α)) (e : CacheEntry α)
    (hmem : r1.state.mem org = some e)
    (hs2 : h2.status = 200) (he2 : h2.etag = some e.etag) :
    query_repos_cached r1.state org h2 n2 = some ⟨r1.result, r1.state, false⟩ := by
  obtain ⟨e', hmem', hcont, _⟩ := query_mem_after s org h1 n1 r1 hc1
  have hee : e = e' := by
    rw [hmem'] at hmem
    exact (Option.some_inj.mp hmem).symm
  subst hee
  rw [query_hit r1.state org h2 n2 e hmem' hs2 he2, hcont]

/-- Witness for claim C1: after a first call that fully fetched [3] under
    token "a", a second probe returning "a" is served from memory. -/
theorem claim_C1_witness :
    query_repos_cached
      (store_cache (setMem (load_cache (ScanState.mk (fun _ => none) (fun _ => none)) "o")
        "o" ⟨"a", [3]⟩) "o")
      "o" (HeadResp.mk 200 (some "a")) (fun _ => HttpResp.mk 200 (some "x") [(9 : Nat)]) =
      some ⟨[3],
        store_cache (setMem (load_cache (ScanState.mk (fun _ => none) (fun _ => none)) "o")
          "o" ⟨"a", [3]⟩) "o", false⟩ :=
  claim_C1 (ScanState.mk (fun _ => none) (fun _ => none)) "o" (HeadResp.mk 200 (some "a"))
    (fun _ => HttpResp.mk 200 (some "x") [(3 : Nat)]) _ rfl
    (HeadResp.mk 200 (some "a")) (fun _ => HttpResp.mk 200 (some "x") [(9 : Nat)])
    ⟨"a", [3]⟩ rfl rfl rfl

/-- Claim C2: a call whose full re-fetch yields zero records leaves the disk
    cache of every organization untouched — in particular an existing
    non-empty persisted file is never overwritten by an empty snapshot. -/
theorem claim_C2 {α : Type} (s : ScanState α) (org : String) (h : HeadResp)
    (n : String → HttpResp (List α)) (r : CallResult α)
    (hq : query_repos_cached s org h n = some r)
    (hfetch : r.didFullFetch = true)
    (hempty : parallel_get_github_endpoint_paged_list
      ("orgs/" ++ org ++ "/repos") n = .ok []) :
    r.state.disk = s.disk := by
  unfold query_repos_cached at hq
  by_cases hst : h.status = 200
  · rw [if_neg (by simp [hst])] at hq
    rcases hetag : h.etag with _ | current
    · rw [hetag] at hq
      cases hq
    · rw [hetag] at hq
      dsimp only at hq
      by_cases hprev : previous_etag (load_cache s org) org = current
      · rw [if_pos hprev] at hq
        rcases hmem : (load_cache s org).mem org with _ | e
        · rw [hmem] at hq
          cases hq
        · rw [hmem] at hq
          cases hq
          exact load_cache_disk s org
      · rw [if_neg hprev, hempty] at hq
        cases hq
        simp [setMem, load_cache_disk]
  · rw [if_pos (by simp [hst])] at hq
    cases hq

/-- Witness for claim C2: an empty re-fetch under a fresh token leaves a
    non-empty persisted file in place. -/
theorem claim_C2_witness :
    (setMem (load_cache (ScanState.mk (fun _ => none)
        (fun o => if o = "o" then some ⟨"a", [(5 : Nat)]⟩ else none)) "o")
      "o" ⟨"b", []⟩).disk =
      (ScanState.mk (fun _ => none)
        (fun o => if o = "o" then some ⟨"a", [(5 : Nat)]⟩ else none)).disk :=
  claim_C2 (ScanState.mk (fun _ => none)
      (fun o => if o = "o" then some ⟨"a", [(5 : Nat)]⟩ else none))
    "o" (HeadResp.mk 200 (some "b")) (fun _ => HttpResp.mk 200 (some "x") []) _
    rfl rfl rfl

/-- Claim C10: after a full re-fetch that returns zero records, the
    in-memory entry is nonetheless replaced with the fresh token and the
    empty snapshot — only the disk write is skipped — and every subsequent
    call whose probe returns the same token is served the empty snapshot
    from memory with no further full fetch. -/
theorem claim_C10 {α : Type} (s : ScanState α) (org : String) (e : String)
    (h1 : HeadResp) (n1 : String → HttpResp (List α))
    (hs1 : h1.status = 200) (he1 : h1.etag = some e)
    (hmiss : previous_etag (load_cache s org) org ≠ e)
    (hempty : parallel_get_github_endpoint_paged_list
      ("orgs/" ++ org ++ "/repos") n1 = .ok []) :
    query_repos_cached s org h1 n1 =
      some ⟨[], setMem (load_cache s org) org ⟨e, []⟩, true⟩ ∧
    (setMem (load_cache s org) org ⟨e, []⟩).mem org = some ⟨e, []⟩ ∧
    (setMem (load_cache s org) org ⟨e, []⟩).disk = s.disk ∧
    ∀ (h2 : HeadResp) (n2 : String → HttpResp (List α)),
      h2.status = 200 → h2.etag = some e →
      query_repos_cached (setMem (load_cache s org) org ⟨e, []⟩) org h2 n2 =
        some ⟨[], setMem (load_cache s org) org ⟨e, []⟩, false⟩ := by
  refine ⟨?_, setMem_mem_self _ _ _, by rw [setMem_disk, load_cache_disk], ?_⟩
  · unfold query_repos_cached
    rw [if_neg (by simp [hs1])]
    simp only [he1]
    rw [if_neg hmiss, hempty]
    simp
  · intro h2 n2 hs2 he2
    rw [query_hit _ org h2 n2 ⟨e, []⟩ (setMem_mem_self _ _ _) hs2 (by rw [he2])]

/-- Witness for claim C10 on a fresh state: an empty re-fetch under token "a"
    caches the empty snapshot in memory and later probes with "a" hit it. -/
theorem claim_C10_witness :
    query_repos_cached (ScanState.mk (fun _ => (none : Option (CacheEntry Nat)))
        (fun _ => none)) "o"
      (HeadResp.mk 200 (some "a")) (fun _ => HttpResp.mk 200 (some "x") []) =
      some ⟨[], setMem (load_cache (ScanState.mk (fun _ => none) (fun _ => none)) "o")
        "o" ⟨"a", []⟩, true⟩ ∧
    (setMem (load_cache (ScanState.mk (fun _ => (none : Option (CacheEntry Nat)))
        (fun _ => none)) "o") "o" ⟨"a", []⟩).mem "o" = some ⟨"a", []⟩ ∧
    (setMem (load_cache (ScanState.mk (fun _ => (none : Option (CacheEntry Nat)))
        (fun _ => none)) "o") "o" ⟨"a", []⟩).disk =
      (ScanState.mk (fun _ => (none : Option (CacheEntry Nat))) (fun _ => none)).disk ∧
    ∀ (h2 : HeadResp) (n2 : String → HttpResp (List Nat)),
      h2.status = 200 → h2.etag = some "a" →
      query_repos_cached (setMem (load_cache (ScanState.mk (fun _ => none)
          (fun _ => none)) "o") "o" ⟨"a", []⟩) "o" h2 n2 =
        some ⟨[], setMem (load_cache (ScanState.mk (fun _ => none) (fun _ => none)) "o")
          "o" ⟨"a", []⟩, false⟩ :=
  claim_C10 (ScanState.mk (fun _ => none) (fun _ => none)) "o" "a"
    (HeadResp.mk 200 (some "a")) (fun _ => HttpResp.mk 200 (some "x") [])
    rfl rfl (by decide) rfl

/-! ### Claim C6: full-fetch count over a run of calls -/

/-- A run of query_repos_cached calls for one organization: thread the state
    through the calls, counting the full fetches; `none` when any call
    terminates the process fatally. -/
def runCalls {α : Type} (org : String) :
    ScanState α → List (HeadResp × (String → HttpResp (List α))) →
      Option (ScanState α × Nat)
  | s, [] => some (s, 0)
  | s, (h, n) :: rest =>
    match query_repos_cached s org h n with
    | none => none
    | some r =>
      match runCalls org r.state rest with
      | none => none
      | some (s', c) => some (s', (if r.didFullFetch then 1 else 0) + c)

/-- Number of full paginated fetches a run performs. -/
def runCount {α : Type} (org : String) (s : ScanState α)
    (inputs : List (HeadResp × (String → HttpResp (List α)))) : Option Nat :=
  (runCalls org s inputs).map (fun p => p.2)

lemma runCalls_hit_zero {α : Type} (org : String) (e : String) :
    ∀ (inputs : List (HeadResp × (String → HttpResp (List α)))) (s : ScanState α)
      (en : CacheEntry α), s.mem org = some en → en.etag = e →
      (∀ i ∈ inputs, i.1.etag = some e) →
      ∀ p, runCalls org s inputs = some p → p.2 = 0 := by
  intro inputs
  induction inputs with
  | nil =>
    intro s en _ _ _ p hp
    cases hp
    rfl
  | cons i rest ih =>
    intro s en hmem hetag hall p hp
    obtain ⟨h, n⟩ := i
    by_cases hst : h.status = 200
    · have hq := query_hit s org h n en hmem hst
        (by rw [hall ⟨h, n⟩ (by simp), hetag])
      unfold runCalls at hp
      rw [hq] at hp
      dsimp only at hp
      rcases hrest : runCalls org s rest with _ | p'
      · rw [hrest] at hp
        cases hp
      · rw [hrest] at hp
        obtain ⟨s', c⟩ := p'
        cases hp
        have hc := ih s en hmem hetag (fun j hj => hall j (by simp [hj])) (s', c) hrest
        simpa using hc
    · have hq : query_repos_cached s org h n = none := by
        unfold query_repos_cached
        rw [if_pos (by simp [hst])]
      unfold runCalls at hp
      rw [hq] at hp
      cases hp

/-- Claim C6 (amended): over any run of query_repos_cached calls for one
    organization in which every probe returns the same validator token, at
    most one full paginated fetch is performed. (Without that proviso the
    claim fails: each token change triggers another full fetch — see the
    counterexample.) -/
theorem claim_C6 {α : Type} (org : String) (s : ScanState α) (e : String)
    (inputs : List (HeadResp × (String → HttpResp (List α))))
    (hall : ∀ i ∈ inputs, i.1.etag = some e)
    (c : Nat) (hrun : runCount org s inputs = some c) : c ≤ 1 := by
  unfold runCount at hrun
  rcases hcalls : runCalls org s inputs with _ | p
  · rw [hcalls] at hrun
    cases hrun
  · rw [hcalls] at hrun
    obtain ⟨sfin, ctotal⟩ := p
    simp only [Option.map_some'] at hrun
    cases hrun
    cases inputs with
    | nil =>
      unfold runCalls at hcalls
      cases hcalls
      simp
    | cons i rest =>
      obtain ⟨h, n⟩ := i
      unfold runCalls at hcalls
      rcases hq : query_repos_cached s org h n with _ | r
      · rw [hq] at hcalls
        cases hcalls
      · rw [hq] at hcalls
        dsimp only at hcalls
        rcases hrest : runCalls org r.state rest with _ | p'
        · rw [hrest] at hcalls
          cases hcalls
        · rw [hrest] at hcalls
          obtain ⟨s2, c2⟩ := p'
          have hc : (if r.didFullFetch then 1 else 0) + c2 = c :=
            congrArg Prod.snd (Option.some_inj.mp hcalls)
          obtain ⟨en, hmem, _, hetag⟩ := query_mem_after s org h n r hq
          have he' : en.etag = e := by
            have hh := hall ⟨h, n⟩ (by simp)
            rw [hh] at hetag
            exact (Option.some_inj.mp hetag).symm
          have hc2 : c2 = 0 := runCalls_hit_zero org e rest r.state en hmem he'
            (fun j hj => hall j (by simp [hj])) (s2, c2) hrest
          rw [← hc, hc2]
          cases r.didFullFetch <;> simp

/-- Counterexample to claim C6 as stated: two calls whose probes return
    different validator tokens each perform a full paginated fetch — two
    full fetches in one process for one organization. -/
theorem claim_C6_cex :
    runCount "o" (ScanState.mk (fun _ => (none : Option (CacheEntry Nat)))
        (fun _ => none))
      [(HeadResp.mk 200 (some "a"), fun _ => HttpResp.mk 200 (some "x") [0]),
       (HeadResp.mk 200 (some "b"), fun _ => HttpResp.mk 200 (some "x") [0])] =
      some 2 ∧ ¬ (2 ≤ 1) :=
  ⟨rfl, by decide⟩

/-- Witness for the amended claim C6: two calls with the same token perform
    exactly one full fetch, and one is at most one. -/
theorem claim_C6_witness : (1 : Nat) ≤ 1 :=
  claim_C6 "o" (ScanState.mk (fun _ => (none : Option (CacheEntry Nat)))
      (fun _ => none)) "a"
    [(HeadResp.mk 200 (some "a"), fun _ => HttpResp.mk 200 (some "x") [0]),
     (HeadResp.mk 200 (some "a"), fun _ => HttpResp.mk 200 (some "x") [0])]
    (by decide) 1 rfl
